import Mathlib

/-!
Verification of the pixel-art conversion core (`pixelart_converter.py`).

The development is a shallow embedding of the three parts of the file:
the resampling geometry of `downsample_image`, the k-means color
quantization `kmeans_color_quantization` (background filtering, seeded
initialization, the assignment/update/convergence loop, and the final
full-image remap), and the resample-method dispatch table.  Machine
`float32` arithmetic is modelled by exact rationals; the library RNG
(`np.random` seeded with the fixed seed 42) is an external deterministic
generator and its draws enter the embedding as explicit arguments.
-/

/-- An RGB color point in 3-D color space: one row of the `(N, 3)`
`float32` pixel array, modelled exactly by rationals. -/
structure Q3 where
  r : ℚ
  g : ℚ
  b : ℚ
deriving DecidableEq

/-- The zero color, used as the (never reachable) default of list lookups. -/
def q3zero : Q3 := ⟨0, 0, 0⟩

/-- Squared Euclidean distance in RGB space.  The code compares
`np.sqrt(np.sum(diff ** 2))` values; since the square root is strictly
monotone on nonnegative arguments, the arg-min over the roots equals the
arg-min over the squares, so the embedding works with squares. -/
def d2 (p q : Q3) : ℚ := (p.r - q.r) ^ 2 + (p.g - q.g) ^ 2 + (p.b - q.b) ^ 2

/-- Pixel brightness, `np.mean(pixels, axis=1)` (line 101): the
unweighted arithmetic mean of the three channels. -/
def brightness (p : Q3) : ℚ := (p.r + p.g + p.b) / 3

/-- Nearest-center assignment, `np.argmin(distances, axis=1)`
(lines 137-144 and 179-184): the index of the closest cluster center,
with the lowest index winning ties, exactly as `np.argmin` returns the
first occurrence of the minimum. -/
def assign (cs : List Q3) (p : Q3) : ℕ :=
  ((List.range cs.length).argmin (fun k => d2 p (cs.getD k q3zero))).getD 0

/-- The pixels currently assigned to cluster `k`:
`quantize_pixels[assignments == k]` (lines 151-155). -/
def members (cs S : List Q3) (k : ℕ) : List Q3 :=
  S.filter (fun p => assign cs p == k)

/-- Componentwise mean of a list of pixels, `np.mean(..., axis=0)`. -/
def meanPt (L : List Q3) : Q3 :=
  ⟨(L.map Q3.r).sum / L.length, (L.map Q3.g).sum / L.length,
    (L.map Q3.b).sum / L.length⟩

/-- The update step (lines 147-159): every center moves to the mean of
its assigned pixels; a center with no assigned pixels is reseeded with a
training pixel drawn by `np.random.randint`, here the explicit draw
`reseed k`. -/
def updateCenters (cs S : List Q3) (reseed : ℕ → Q3) : List Q3 :=
  (List.range cs.length).map (fun k =>
    if 0 < (members cs S k).length then meanPt (members cs S k) else reseed k)

/-- The convergence scalar
`center_shift = np.sum(np.abs(new_cluster_centers - cluster_centers))`
(line 162): the sum, over all `K` centers and all three channels, of the
absolute componentwise differences. -/
def l1Shift (old nw : List Q3) : ℚ :=
  ((old.zip nw).map (fun pr =>
    |pr.1.r - pr.2.r| + |pr.1.g - pr.2.g| + |pr.1.b - pr.2.b|)).sum

/-- The k-means loop (lines 135-171): at most `fuel` iterations remain;
each iteration recomputes assignments, updates the centers, and breaks as
soon as `center_shift < 1.0`.  `t` counts the iterations already
executed, and `reseed t k` is the external reseed draw for cluster `k` at
iteration `t`.  Returns the final centers together with the number of
iterations executed. -/
def kmeansLoop (S : List Q3) (reseed : ℕ → ℕ → Q3) :
    ℕ → List Q3 → ℕ → List Q3 × ℕ
  | 0, cs, t => (cs, t)
  | fuel + 1, cs, t =>
    let cs' := updateCenters cs S (reseed t)
    if l1Shift cs cs' < 1 then (cs', t + 1)
    else kmeansLoop S reseed fuel cs' (t + 1)

/-- The centers reached after `n` unconditional update steps starting
from `cs`, with the iteration counter based at `t0`; the reference
trajectory against which `kmeansLoop` is characterized. -/
def centersFrom (S : List Q3) (reseed : ℕ → ℕ → Q3) (t0 : ℕ) (cs : List Q3) :
    ℕ → List Q3
  | 0 => cs
  | n + 1 => updateCenters (centersFrom S reseed t0 cs n) S (reseed (t0 + n))

/-- The `center_shift` value produced during iteration `n` of a run whose
initial centers are `cs`. -/
def shiftAt (S : List Q3) (reseed : ℕ → ℕ → Q3) (cs : List Q3) (n : ℕ) : ℚ :=
  l1Shift (centersFrom S reseed 0 cs n) (centersFrom S reseed 0 cs (n + 1))

/-- Training-set selection (lines 99-118).  With background filtering on,
the pixels whose brightness is strictly greater than the threshold are
kept (`brightness > bg_threshold`, line 102); if fewer than `num_colors`
remain, the code prints a degraded-mode warning and uses all pixels
instead.  The boolean records whether the warning branch was taken. -/
def selectTraining (ignoreBg : Bool) (thr : ℚ) (K : ℕ) (pixels : List Q3) :
    List Q3 × Bool :=
  if ignoreBg then
    let fg := pixels.filter (fun p => decide (thr < brightness p))
    if fg.length < K then (pixels, true) else (fg, false)
  else (pixels, false)

/-- Initial centers (lines 124-126): the training pixels at the indices
drawn by `np.random.choice(num_quantize_pixels, num_colors,
replace=False)` under the fixed seed 42; the draw is an external
deterministic function and the resulting index list is passed in. -/
def initCentroids (train : List Q3) (idxs : List ℕ) : List Q3 :=
  idxs.map (fun i => train.getD i q3zero)

/-- One output channel of `np.clip(quantized_array, 0, 255).astype(np.uint8)`
(line 193): clamp to the 8-bit range, then truncate to an integer
(truncation coincides with the floor on the clamped nonnegative value). -/
def clampByte (x : ℚ) : ℤ := ⌊max 0 (min 255 x)⌋

/-- The three clamped output channels of one quantized pixel. -/
def clampByte3 (p : Q3) : ℤ × ℤ × ℤ := (clampByte p.r, clampByte p.g, clampByte p.b)

/-- One channel of `cluster_centers.astype(np.uint8)` (line 208): the
`uint8` cast without a prior clip.  Reachable centers always lie in
`[0, 255]`, where the cast is plain truncation; the reduction mod 256
models the wrap of the underlying C cast on out-of-range values. -/
def castByte (x : ℚ) : ℤ := ⌊x⌋ % 256

/-- The three cast channels of one palette entry. -/
def castByte3 (p : Q3) : ℤ × ℤ × ℤ := (castByte p.r, castByte p.g, castByte p.b)

/-- The observable result of `kmeans_color_quantization`: the quantized
image as a row-major pixel list, the returned palette, the exact final
centers, the degraded-mode flag, and the number of loop iterations. -/
structure QuantResult where
  image : List (ℤ × ℤ × ℤ)
  palette : List (ℤ × ℤ × ℤ)
  centers : List Q3
  degraded : Bool
  iters : ℕ
deriving DecidableEq

/-- The whole of `kmeans_color_quantization` (lines 42-208) as a function
of the image pixels, `num_colors`, `max_iterations`, the background
options, and the external random draws: `initIdx` models the seeded
`np.random.choice` initialization draw and `reseedIdx t k` the
`np.random.randint` draw used if cluster `k` is empty at iteration `t`. -/
def kmeansRun (pixels : List Q3) (K maxIter : ℕ) (ignoreBg : Bool) (thr : ℚ)
    (initIdx : List ℕ) (reseedIdx : ℕ → ℕ → ℕ) : QuantResult :=
  let sel := selectTraining ignoreBg thr K pixels
  let train := sel.1
  let cs0 := initCentroids train initIdx
  let res := kmeansLoop train (fun t k => train.getD (reseedIdx t k) q3zero)
    maxIter cs0 0
  let cs := res.1
  { image := pixels.map (fun p => clampByte3 (cs.getD (assign cs p) q3zero))
    palette := cs.map castByte3
    centers := cs
    degraded := sel.2
    iters := res.2 }

/-- The console presentation of the palette (lines 200-206): the centers
listed in ascending order of mean-channel brightness, following
`brightness_order = np.argsort(np.mean(cluster_centers, axis=1))`. -/
def sortedPalette (cs : List Q3) : List Q3 :=
  cs.mergeSort (fun a b => decide (brightness a ≤ brightness b))

/-- The within-cluster distance functional: the sum over the samples of
the squared Euclidean distance to the center each sample is assigned to
by the assignment map `a`. -/
def phi (S : List Q3) (a : Q3 → ℕ) (cs : List Q3) : ℚ :=
  (S.map (fun p => d2 p (cs.getD (a p) q3zero))).sum

/-- The three interpolation strategies named by the dispatch table of
`downsample_image` (lines 13-17). -/
inductive ResampleMethod
  | nearest
  | bilinear
  | lanczos
deriving DecidableEq

/-- The dispatch `resample_methods.get(method, Image.Resampling.LANCZOS)`
(line 18): a dictionary lookup whose default for every unrecognized key
is Lanczos. -/
def resampleMethodOf (s : String) : ResampleMethod :=
  if s = "nearest" then ResampleMethod.nearest
  else if s = "bilinear" then ResampleMethod.bilinear
  else if s = "lanczos" then ResampleMethod.lanczos
  else ResampleMethod.lanczos

/-- The placement geometry produced by `downsample_image` (lines 20-37):
size of the scaled content, paste offsets, canvas size and fill color.
The pixel interpolation inside `img.resize` is PIL's, external to the
repository. -/
structure ResampleGeom where
  contentW : ℤ
  contentH : ℤ
  offX : ℤ
  offY : ℤ
  canvasW : ℤ
  canvasH : ℤ
  fill : ℤ × ℤ × ℤ
deriving DecidableEq

/-- Geometry of `downsample_image` (lines 20-37).  Python `int(x)`
truncates, which equals the floor on the nonnegative values arising here;
Python `//` is floor division, `Int.fdiv`. -/
def downsampleGeom (sw sh tw th : ℤ) (preserve : Bool) : ResampleGeom :=
  if preserve then
    let sc : ℚ := min ((tw : ℚ) / (sw : ℚ)) ((th : ℚ) / (sh : ℚ))
    let nw : ℤ := ⌊(sw : ℚ) * sc⌋
    let nh : ℤ := ⌊(sh : ℚ) * sc⌋
    { contentW := nw, contentH := nh,
      offX := Int.fdiv (tw - nw) 2, offY := Int.fdiv (th - nh) 2,
      canvasW := tw, canvasH := th, fill := (0, 0, 0) }
  else
    { contentW := tw, contentH := th, offX := 0, offY := 0,
      canvasW := tw, canvasH := th, fill := (0, 0, 0) }

/-! ### List access and argmin infrastructure -/

theorem getD_map_range (g : ℕ → Q3) (n k : ℕ) (hk : k < n) (z : Q3) :
    ((List.range n).map g).getD k z = g k := by
  rw [List.getD_eq_getElem?_getD, List.getElem?_map, List.getElem?_range hk]
  rfl

theorem getD_map {α β : Type} (l : List α) (f : α → β) (j : ℕ)
    (hj : j < l.length) (z : β) (w : α) :
    (l.map f).getD j z = f (l.getD j w) := by
  rw [List.getD_eq_getElem?_getD, List.getElem?_map,
    List.getD_eq_getElem?_getD, List.getElem?_eq_getElem hj]
  rfl

theorem getD_mem {α : Type} (l : List α) (j : ℕ) (hj : j < l.length) (w : α) :
    l.getD j w ∈ l := by
  rw [List.getD_eq_getElem?_getD, List.getElem?_eq_getElem hj]
  exact List.getElem_mem hj

theorem assign_lt (cs : List Q3) (hcs : cs ≠ []) (p : Q3) :
    assign cs p < cs.length := by
  unfold assign
  cases h : (List.range cs.length).argmin (fun k => d2 p (cs.getD k q3zero)) with
  | none =>
    rw [List.argmin_eq_none, List.range_eq_nil] at h
    exact absurd (List.length_eq_zero.mp h) hcs
  | some m =>
    have hm := List.argmin_mem h
    rw [List.mem_range] at hm
    simpa using hm

theorem assign_min (cs : List Q3) (p : Q3) (k : ℕ) (hk : k < cs.length) :
    d2 p (cs.getD (assign cs p) q3zero) ≤ d2 p (cs.getD k q3zero) := by
  unfold assign
  cases h : (List.range cs.length).argmin (fun j => d2 p (cs.getD j q3zero)) with
  | none =>
    rw [List.argmin_eq_none, List.range_eq_nil] at h
    omega
  | some m =>
    have := List.le_of_mem_argmin (List.mem_range.mpr hk) h
    simpa using this

theorem updateCenters_length (cs S : List Q3) (reseed : ℕ → Q3) :
    (updateCenters cs S reseed).length = cs.length := by
  simp [updateCenters]

/-! ### Partition of a sum over samples into per-cluster sums -/

theorem sum_map_partition {α M : Type} [AddCommMonoid M] (a : α → ℕ) (K : ℕ)
    (f : α → M) (S : List α) (h : ∀ p ∈ S, a p < K) :
    (S.map f).sum
      = ∑ k ∈ Finset.range K, ((S.filter (fun p => a p == k)).map f).sum := by
  induction S with
  | nil => simp
  | cons p S ih =>
    have hp : a p < K := h p (List.mem_cons_self p S)
    have hS : ∀ q ∈ S, a q < K := fun q hq => h q (List.mem_cons_of_mem _ hq)
    have step : ∀ k ∈ Finset.range K,
        (((p :: S).filter (fun q => a q == k)).map f).sum
          = ((S.filter (fun q => a q == k)).map f).sum
            + (if a p = k then f p else 0) := by
      intro k _
      by_cases hk : a p = k
      · simp [List.filter_cons, hk, add_comm]
      · simp [List.filter_cons, hk]
    rw [List.map_cons, List.sum_cons, ih hS, Finset.sum_congr rfl step,
      Finset.sum_add_distrib, Finset.sum_ite_eq (Finset.range K) (a p)]
    simp [Finset.mem_range.mpr hp, add_comm]

theorem sum_map_one {α : Type} (S : List α) :
    (S.map (fun _ => (1 : ℕ))).sum = S.length := by
  induction S with
  | nil => rfl
  | cons p S ih => simp [ih, Nat.add_comm]

/-! ### The mean minimizes the sum of squared distances -/

theorem sum_sq_expand (xs : List ℚ) (c : ℚ) :
    (xs.map (fun x => (x - c) ^ 2)).sum
      = (xs.map (fun x => x ^ 2)).sum - 2 * c * xs.sum + xs.length * c ^ 2 := by
  induction xs with
  | nil => simp
  | cons x xs ih =>
    simp only [List.map_cons, List.sum_cons, ih, List.length_cons]
    push_cast
    ring

theorem mean_min_channel (xs : List ℚ) (hxs : xs ≠ []) (c : ℚ) :
    (xs.map (fun x => (x - xs.sum / xs.length) ^ 2)).sum
      ≤ (xs.map (fun x => (x - c) ^ 2)).sum := by
  have hn : (0 : ℚ) < xs.length := by
    exact_mod_cast List.length_pos.mpr hxs
  have hne : (xs.length : ℚ) ≠ 0 := ne_of_gt hn
  rw [sum_sq_expand, sum_sq_expand]
  have e2 : (xs.length : ℚ) * (xs.sum / xs.length) ^ 2
      - 2 * (xs.sum / xs.length) * xs.sum = -(xs.sum ^ 2 / xs.length) := by
    field_simp
    ring
  have e : ((xs.length : ℚ) * c - xs.sum) ^ 2 / xs.length
      = (xs.length : ℚ) * c ^ 2 - 2 * c * xs.sum + xs.sum ^ 2 / xs.length := by
    field_simp
    ring
  have key : 0 ≤ ((xs.length : ℚ) * c - xs.sum) ^ 2 / xs.length :=
    div_nonneg (sq_nonneg _) (le_of_lt hn)
  rw [e] at key
  linarith

theorem sum_d2_split (L : List Q3) (q : Q3) :
    (L.map (fun p => d2 p q)).sum
      = ((L.map Q3.r).map (fun x => (x - q.r) ^ 2)).sum
      + ((L.map Q3.g).map (fun x => (x - q.g) ^ 2)).sum
      + ((L.map Q3.b).map (fun x => (x - q.b) ^ 2)).sum := by
  rw [List.map_map, List.map_map, List.map_map, ← List.sum_map_add, ← List.sum_map_add]
  rfl

theorem sum_d2_mean_le (L : List Q3) (hL : L ≠ []) (c : Q3) :
    (L.map (fun p => d2 p (meanPt L))).sum ≤ (L.map (fun p => d2 p c)).sum := by
  rw [sum_d2_split, sum_d2_split]
  have hr := mean_min_channel (L.map Q3.r) (by simpa using hL) c.r
  have hg := mean_min_channel (L.map Q3.g) (by simpa using hL) c.g
  have hb := mean_min_channel (L.map Q3.b) (by simpa using hL) c.b
  rw [List.length_map] at hr hg hb
  exact add_le_add (add_le_add hr hg) hb

/-! ### The within-cluster functional, grouped by cluster -/

theorem phi_partition (S : List Q3) (A : Q3 → ℕ) (cs' : List Q3) (K : ℕ)
    (hA : ∀ p ∈ S, A p < K) :
    phi S A cs'
      = ∑ k ∈ Finset.range K,
          ((S.filter (fun p => A p == k)).map
            (fun p => d2 p (cs'.getD k q3zero))).sum := by
  rw [phi, sum_map_partition A K _ S hA]
  refine Finset.sum_congr rfl ?_
  intro k _
  congr 1
  apply List.map_congr_left
  intro p hp
  have hpk : A p = k := by simpa using (List.mem_filter.mp hp).2
  rw [hpk]

/-! ### Loop length preservation and characterization -/

theorem kmeansLoop_length (S : List Q3) (reseed : ℕ → ℕ → Q3) (fuel : ℕ) :
    ∀ (cs : List Q3) (t : ℕ), (kmeansLoop S reseed fuel cs t).1.length = cs.length := by
  induction fuel with
  | zero => intro cs t; rfl
  | succ m ih =>
    intro cs t
    simp only [kmeansLoop]
    by_cases h : l1Shift cs (updateCenters cs S (reseed t)) < 1
    · rw [if_pos h]
      exact updateCenters_length cs S (reseed t)
    · rw [if_neg h, ih, updateCenters_length]

theorem centersFrom_shift (S : List Q3) (reseed : ℕ → ℕ → Q3) (t0 : ℕ)
    (cs : List Q3) (n : ℕ) :
    centersFrom S reseed t0 cs (n + 1)
      = centersFrom S reseed (t0 + 1) (updateCenters cs S (reseed t0)) n := by
  induction n with
  | zero => rfl
  | succ m ih =>
    have e : t0 + (m + 1) = t0 + 1 + m := by omega
    calc centersFrom S reseed t0 cs (m + 1 + 1)
        = updateCenters (centersFrom S reseed t0 cs (m + 1)) S
            (reseed (t0 + (m + 1))) := rfl
      _ = updateCenters
            (centersFrom S reseed (t0 + 1) (updateCenters cs S (reseed t0)) m) S
            (reseed (t0 + 1 + m)) := by rw [ih, e]
      _ = centersFrom S reseed (t0 + 1) (updateCenters cs S (reseed t0)) (m + 1) := rfl

theorem kmeansLoop_max (S : List Q3) (reseed : ℕ → ℕ → Q3) :
    ∀ (fuel : ℕ) (cs : List Q3) (t0 : ℕ),
      (∀ n < fuel, 1 ≤ l1Shift (centersFrom S reseed t0 cs n)
        (centersFrom S reseed t0 cs (n + 1))) →
      kmeansLoop S reseed fuel cs t0 = (centersFrom S reseed t0 cs fuel, t0 + fuel) := by
  intro fuel
  induction fuel with
  | zero => intro cs t0 _; rfl
  | succ m ih =>
    intro cs t0 h
    have h0 := h 0 (Nat.succ_pos m)
    have hnot : ¬ l1Shift cs (updateCenters cs S (reseed t0)) < 1 :=
      not_lt.mpr (by simpa [centersFrom] using h0)
    simp only [kmeansLoop]
    rw [if_neg hnot]
    have hpre : ∀ n < m,
        1 ≤ l1Shift (centersFrom S reseed (t0 + 1) (updateCenters cs S (reseed t0)) n)
          (centersFrom S reseed (t0 + 1) (updateCenters cs S (reseed t0)) (n + 1)) := by
      intro n hn
      have h2 := h (n + 1) (by omega)
      rw [centersFrom_shift S reseed t0 cs n,
        centersFrom_shift S reseed t0 cs (n + 1)] at h2
      exact h2
    rw [ih (updateCenters cs S (reseed t0)) (t0 + 1) hpre, Prod.mk.injEq]
    exact ⟨(centersFrom_shift S reseed t0 cs m).symm, by omega⟩

theorem kmeansLoop_conv (S : List Q3) (reseed : ℕ → ℕ → Q3) :
    ∀ (fuel : ℕ) (cs : List Q3) (t0 : ℕ) (j : ℕ), j < fuel →
      (∀ n < j, 1 ≤ l1Shift (centersFrom S reseed t0 cs n)
        (centersFrom S reseed t0 cs (n + 1))) →
      l1Shift (centersFrom S reseed t0 cs j) (centersFrom S reseed t0 cs (j + 1)) < 1 →
      kmeansLoop S reseed fuel cs t0 = (centersFrom S reseed t0 cs (j + 1), t0 + j + 1) := by
  intro fuel
  induction fuel with
  | zero => intro cs t0 j hj; omega
  | succ m ih =>
    intro cs t0 j hj hpre hconv
    simp only [kmeansLoop]
    cases j with
    | zero =>
      have hstop : l1Shift cs (updateCenters cs S (reseed t0)) < 1 := by
        simpa [centersFrom] using hconv
      rw [if_pos hstop, Prod.mk.injEq]
      exact ⟨rfl, rfl⟩
    | succ i =>
      have h0 := hpre 0 (Nat.succ_pos i)
      have hnot : ¬ l1Shift cs (updateCenters cs S (reseed t0)) < 1 :=
        not_lt.mpr (by simpa [centersFrom] using h0)
      rw [if_neg hnot]
      have hpre' : ∀ n < i,
          1 ≤ l1Shift (centersFrom S reseed (t0 + 1) (updateCenters cs S (reseed t0)) n)
            (centersFrom S reseed (t0 + 1) (updateCenters cs S (reseed t0)) (n + 1)) := by
        intro n hn
        have h2 := hpre (n + 1) (by omega)
        rw [centersFrom_shift S reseed t0 cs n,
          centersFrom_shift S reseed t0 cs (n + 1)] at h2
        exact h2
      have hconv' :
          l1Shift (centersFrom S reseed (t0 + 1) (updateCenters cs S (reseed t0)) i)
            (centersFrom S reseed (t0 + 1) (updateCenters cs S (reseed t0)) (i + 1)) < 1 := by
        have h2 := hconv
        rw [centersFrom_shift S reseed t0 cs i,
          centersFrom_shift S reseed t0 cs (i + 1)] at h2
        exact h2
      rw [ih (updateCenters cs S (reseed t0)) (t0 + 1) i (by omega) hpre' hconv',
        Prod.mk.injEq]
      exact ⟨(centersFrom_shift S reseed t0 cs (i + 1)).symm, by omega⟩

/-! ### C4: Lloyd iteration does not increase within-cluster distance -/

/-- C4: for every sample set and every Cluster Engine iteration in which no
cluster is empty (so no random reseed occurs), the within-cluster squared
distance — the sum over samples of the squared Euclidean distance to the
centroid they are assigned to — after the iteration's assignment and
mean-update steps is not greater than it was before the iteration, for any
entering assignment `a0` of the samples to the entering centers `cs`. -/
theorem wcss_nonincreasing (S cs : List Q3) (a0 : Q3 → ℕ) (reseed : ℕ → Q3)
    (hcs : cs ≠ []) (ha0 : ∀ p ∈ S, a0 p < cs.length)
    (hne : ∀ k < cs.length, members cs S k ≠ []) :
    phi S (assign cs) (updateCenters cs S reseed) ≤ phi S a0 cs := by
  have hA : ∀ p ∈ S, assign cs p < cs.length := fun p _ => assign_lt cs hcs p
  have step1 : phi S (assign cs) cs ≤ phi S a0 cs := by
    unfold phi
    apply List.sum_le_sum
    intro p hp
    exact assign_min cs p (a0 p) (ha0 p hp)
  have step2 : phi S (assign cs) (updateCenters cs S reseed)
      ≤ phi S (assign cs) cs := by
    rw [phi_partition S (assign cs) _ cs.length hA,
      phi_partition S (assign cs) cs cs.length hA]
    apply Finset.sum_le_sum
    intro k hk
    rw [Finset.mem_range] at hk
    have hmem : members cs S k ≠ [] := hne k hk
    have hupd : (updateCenters cs S reseed).getD k q3zero
        = meanPt (members cs S k) := by
      simp only [updateCenters]
      rw [getD_map_range _ _ _ hk, if_pos (List.length_pos.mpr hmem)]
    rw [hupd]
    exact sum_d2_mean_le (S.filter (fun p => assign cs p == k)) hmem
      (cs.getD k q3zero)
  exact le_trans step2 step1

/-- Witness for C4 at a concrete two-sample, two-cluster iteration. -/
theorem wcss_nonincreasing_witness :
    (([⟨1,0,0⟩, ⟨9,0,0⟩] : List Q3) ≠ [])
    ∧ (∀ p ∈ ([⟨0,0,0⟩, ⟨10,0,0⟩] : List Q3),
        (fun _ : Q3 => 0) p < ([⟨1,0,0⟩, ⟨9,0,0⟩] : List Q3).length)
    ∧ (∀ k < ([⟨1,0,0⟩, ⟨9,0,0⟩] : List Q3).length,
        members [⟨1,0,0⟩, ⟨9,0,0⟩] [⟨0,0,0⟩, ⟨10,0,0⟩] k ≠ [])
    ∧ phi [⟨0,0,0⟩, ⟨10,0,0⟩] (assign [⟨1,0,0⟩, ⟨9,0,0⟩])
        (updateCenters [⟨1,0,0⟩, ⟨9,0,0⟩] [⟨0,0,0⟩, ⟨10,0,0⟩] (fun _ => q3zero))
      ≤ phi [⟨0,0,0⟩, ⟨10,0,0⟩] (fun _ => 0) [⟨1,0,0⟩, ⟨9,0,0⟩] := by
  have hcs : ([⟨1,0,0⟩, ⟨9,0,0⟩] : List Q3) ≠ [] := by simp
  have ha0 : ∀ p ∈ ([⟨0,0,0⟩, ⟨10,0,0⟩] : List Q3),
      (fun _ : Q3 => 0) p < ([⟨1,0,0⟩, ⟨9,0,0⟩] : List Q3).length := by
    intro p _
    norm_num
  have hne : ∀ k < ([⟨1,0,0⟩, ⟨9,0,0⟩] : List Q3).length,
      members [⟨1,0,0⟩, ⟨9,0,0⟩] [⟨0,0,0⟩, ⟨10,0,0⟩] k ≠ [] := by
    intro k hk
    norm_num at hk
    interval_cases k <;>
      norm_num [members, assign, d2, q3zero, List.range, List.range.loop,
        List.argmin, List.argAux, List.filter_cons, List.filter_nil]
  exact ⟨hcs, ha0, hne,
    wcss_nonincreasing [⟨0,0,0⟩, ⟨10,0,0⟩] [⟨1,0,0⟩, ⟨9,0,0⟩] (fun _ => 0)
      (fun _ => q3zero) hcs ha0 hne⟩

/-! ### C5: exactly K centroids, one assignment per sample -/

/-- C5: for every input image and valid `K` (with the initialization drawing
`K` indices), the Cluster Engine returns exactly `K` centroids (and a
`K`-entry palette), every training sample is assigned the index of one of
those `K` centroids, and the per-cluster membership counts sum to the
training-set size. -/
theorem engine_centroid_count (pixels : List Q3) (K maxIter : ℕ) (ignoreBg : Bool)
    (thr : ℚ) (initIdx : List ℕ) (reseedIdx : ℕ → ℕ → ℕ)
    (hK : 1 ≤ K) (hlen : initIdx.length = K) :
    (kmeansRun pixels K maxIter ignoreBg thr initIdx reseedIdx).centers.length = K
    ∧ (kmeansRun pixels K maxIter ignoreBg thr initIdx reseedIdx).palette.length = K
    ∧ (∀ p ∈ (selectTraining ignoreBg thr K pixels).1,
        assign (kmeansRun pixels K maxIter ignoreBg thr initIdx reseedIdx).centers p < K)
    ∧ ∑ k ∈ Finset.range K,
        (members (kmeansRun pixels K maxIter ignoreBg thr initIdx reseedIdx).centers
          (selectTraining ignoreBg thr K pixels).1 k).length
      = (selectTraining ignoreBg thr K pixels).1.length := by
  set train := (selectTraining ignoreBg thr K pixels).1 with htrain
  set R := kmeansRun pixels K maxIter ignoreBg thr initIdx reseedIdx with hR
  have hcenters : R.centers
      = (kmeansLoop train (fun t k => train.getD (reseedIdx t k) q3zero) maxIter
          (initCentroids train initIdx) 0).1 := rfl
  have hlen0 : (initCentroids train initIdx).length = K := by
    simp [initCentroids, hlen]
  have hlenc : R.centers.length = K := by
    rw [hcenters, kmeansLoop_length, hlen0]
  have hnil : R.centers ≠ [] := by
    apply List.ne_nil_of_length_pos
    rw [hlenc]
    omega
  have hb : ∀ p ∈ train, assign R.centers p < K := by
    intro p _
    have h := assign_lt R.centers hnil p
    rwa [hlenc] at h
  have hpal : R.palette = R.centers.map castByte3 := rfl
  refine ⟨hlenc, ?_, hb, ?_⟩
  · rw [hpal, List.length_map, hlenc]
  · have h := sum_map_partition (assign R.centers) K (fun _ => (1 : ℕ)) train hb
    rw [sum_map_one] at h
    simp only [sum_map_one] at h
    simpa [members] using h.symm

/-- Witness for C5 at a concrete two-pixel image with `K = 2`. -/
theorem engine_centroid_count_witness :
    1 ≤ 2 ∧ ([0, 1] : List ℕ).length = 2
    ∧ ((kmeansRun [⟨0,0,0⟩, ⟨255,255,255⟩] 2 50 false 30 [0, 1]
          (fun _ _ => 0)).centers.length = 2
      ∧ (kmeansRun [⟨0,0,0⟩, ⟨255,255,255⟩] 2 50 false 30 [0, 1]
          (fun _ _ => 0)).palette.length = 2
      ∧ (∀ p ∈ (selectTraining false 30 2 [⟨0,0,0⟩, ⟨255,255,255⟩]).1,
          assign (kmeansRun [⟨0,0,0⟩, ⟨255,255,255⟩] 2 50 false 30 [0, 1]
            (fun _ _ => 0)).centers p < 2)
      ∧ ∑ k ∈ Finset.range 2,
          (members (kmeansRun [⟨0,0,0⟩, ⟨255,255,255⟩] 2 50 false 30 [0, 1]
              (fun _ _ => 0)).centers
            (selectTraining false 30 2 [⟨0,0,0⟩, ⟨255,255,255⟩]).1 k).length
        = (selectTraining false 30 2 [⟨0,0,0⟩, ⟨255,255,255⟩]).1.length) := by
  refine ⟨by norm_num, by simp, ?_⟩
  exact engine_centroid_count [⟨0,0,0⟩, ⟨255,255,255⟩] 2 50 false 30 [0, 1]
    (fun _ _ => 0) (by norm_num) (by simp)

/-! ### C1: the convergence check and its metric -/

/-- C1 (amended): after each update step the code computes the total
displacement as the sum, over the K centroids and the three channels, of
the absolute componentwise differences new−old (the L1 norm of the
flattened difference, not the sum of per-centroid Euclidean magnitudes);
the loop stops as soon as this value is below 1.0, and reaching
`max_iterations` without it dropping below 1.0 is a valid, non-error exit
returning the last computed centroids. -/
theorem loop_convergence_charact (S : List Q3) (reseed : ℕ → ℕ → Q3)
    (cs : List Q3) (maxIter : ℕ) :
    ((∀ n < maxIter, 1 ≤ shiftAt S reseed cs n) →
      kmeansLoop S reseed maxIter cs 0
        = (centersFrom S reseed 0 cs maxIter, maxIter))
    ∧ (∀ j < maxIter, (∀ n < j, 1 ≤ shiftAt S reseed cs n) →
        shiftAt S reseed cs j < 1 →
        kmeansLoop S reseed maxIter cs 0
          = (centersFrom S reseed 0 cs (j + 1), j + 1)) := by
  constructor
  · intro h
    have hmax := kmeansLoop_max S reseed maxIter cs 0 (by simpa [shiftAt] using h)
    simpa using hmax
  · intro j hj hpre hconv
    have hcv := kmeansLoop_conv S reseed maxIter cs 0 j hj
      (by simpa [shiftAt] using hpre) (by simpa [shiftAt] using hconv)
    simpa using hcv

/-- Witness for C1 at a concrete one-cluster run that needs two iterations:
the first shift is 3/2, the second is 0, so the loop stops after the
second update and returns that update's centers. -/
theorem loop_convergence_charact_witness :
    (∀ n < 1, 1 ≤ shiftAt [⟨0,0,0⟩, ⟨1,1,1⟩] (fun _ _ => q3zero)
      (initCentroids [⟨0,0,0⟩, ⟨1,1,1⟩] [0]) n)
    ∧ shiftAt [⟨0,0,0⟩, ⟨1,1,1⟩] (fun _ _ => q3zero)
        (initCentroids [⟨0,0,0⟩, ⟨1,1,1⟩] [0]) 1 < 1
    ∧ kmeansLoop [⟨0,0,0⟩, ⟨1,1,1⟩] (fun _ _ => q3zero) 50
        (initCentroids [⟨0,0,0⟩, ⟨1,1,1⟩] [0]) 0
      = (centersFrom [⟨0,0,0⟩, ⟨1,1,1⟩] (fun _ _ => q3zero) 0
          (initCentroids [⟨0,0,0⟩, ⟨1,1,1⟩] [0]) 2, 2) := by
  have h1 : ∀ n < 1, 1 ≤ shiftAt [⟨0,0,0⟩, ⟨1,1,1⟩] (fun _ _ => q3zero)
      (initCentroids [⟨0,0,0⟩, ⟨1,1,1⟩] [0]) n := by
    intro n hn
    norm_num at hn
    subst hn
    norm_num [shiftAt, centersFrom, updateCenters, members, meanPt, assign,
      l1Shift, initCentroids, d2, q3zero, List.range, List.range.loop,
      List.argmin, List.argAux, List.filter_cons, List.filter_nil,
      abs_of_nonneg]
  have h2 : shiftAt [⟨0,0,0⟩, ⟨1,1,1⟩] (fun _ _ => q3zero)
      (initCentroids [⟨0,0,0⟩, ⟨1,1,1⟩] [0]) 1 < 1 := by
    norm_num [shiftAt, centersFrom, updateCenters, members, meanPt, assign,
      l1Shift, initCentroids, d2, q3zero, List.range, List.range.loop,
      List.argmin, List.argAux, List.filter_cons, List.filter_nil,
      abs_of_nonneg]
  exact ⟨h1, h2,
    (loop_convergence_charact [⟨0,0,0⟩, ⟨1,1,1⟩] (fun _ _ => q3zero)
      (initCentroids [⟨0,0,0⟩, ⟨1,1,1⟩] [0]) 50).2 1 (by norm_num) h1 h2⟩

/-- Counterexample for C1 as stated: on the two-sample set with one
cluster, the first update moves the single centroid from (0,0,0) to
(1/2,1/2,1/2), whose squared Euclidean magnitude is 3/4 < 1 — so the
spec displacement, the sum over centroids of Euclidean magnitudes,
is below 1.0 — yet the code's L1 shift is 3/2, which is not below 1.0,
and the loop runs a second iteration instead of stopping. -/
theorem c1_displacement_metric_counterexample :
    centersFrom [⟨0,0,0⟩, ⟨1,1,1⟩] (fun _ _ => q3zero) 0
        (initCentroids [⟨0,0,0⟩, ⟨1,1,1⟩] [0]) 1 = [⟨1/2, 1/2, 1/2⟩]
    ∧ d2 ⟨0,0,0⟩ ⟨1/2, 1/2, 1/2⟩ < 1
    ∧ ¬ l1Shift (initCentroids [⟨0,0,0⟩, ⟨1,1,1⟩] [0]) [⟨1/2, 1/2, 1/2⟩] < 1
    ∧ (kmeansLoop [⟨0,0,0⟩, ⟨1,1,1⟩] (fun _ _ => q3zero) 50
        (initCentroids [⟨0,0,0⟩, ⟨1,1,1⟩] [0]) 0).2 = 2 := by
  have hc1 : centersFrom [⟨0,0,0⟩, ⟨1,1,1⟩] (fun _ _ => q3zero) 0
      (initCentroids [⟨0,0,0⟩, ⟨1,1,1⟩] [0]) 1 = [⟨1/2, 1/2, 1/2⟩] := by
    norm_num [centersFrom, updateCenters, members, meanPt, assign,
      initCentroids, d2, q3zero, List.range, List.range.loop,
      List.argmin, List.argAux, List.filter_cons, List.filter_nil]
  have h1 : ∀ n < 1, 1 ≤ shiftAt [⟨0,0,0⟩, ⟨1,1,1⟩] (fun _ _ => q3zero)
      (initCentroids [⟨0,0,0⟩, ⟨1,1,1⟩] [0]) n := by
    intro n hn
    norm_num at hn
    subst hn
    norm_num [shiftAt, centersFrom, updateCenters, members, meanPt, assign,
      l1Shift, initCentroids, d2, q3zero, List.range, List.range.loop,
      List.argmin, List.argAux, List.filter_cons, List.filter_nil,
      abs_of_nonneg]
  have h2 : shiftAt [⟨0,0,0⟩, ⟨1,1,1⟩] (fun _ _ => q3zero)
      (initCentroids [⟨0,0,0⟩, ⟨1,1,1⟩] [0]) 1 < 1 := by
    norm_num [shiftAt, centersFrom, updateCenters, members, meanPt, assign,
      l1Shift, initCentroids, d2, q3zero, List.range, List.range.loop,
      List.argmin, List.argAux, List.filter_cons, List.filter_nil,
      abs_of_nonneg]
  refine ⟨hc1, by norm_num [d2], ?_, ?_⟩
  · rw [← hc1]
    have := h1 0 (by norm_num)
    rw [shiftAt] at this
    simpa [centersFrom] using not_lt.mpr this
  · rw [kmeansLoop_conv [⟨0,0,0⟩, ⟨1,1,1⟩] (fun _ _ => q3zero) 50
      (initCentroids [⟨0,0,0⟩, ⟨1,1,1⟩] [0]) 0 1 (by norm_num)
      (by simpa [shiftAt] using h1) (by simpa [shiftAt] using h2)]

/-! ### Fallback selection helpers shared by the degraded-mode claims -/

theorem selectTraining_fallback (thr : ℚ) (K : ℕ) (pixels : List Q3)
    (h : (pixels.filter (fun p => decide (thr < brightness p))).length < K) :
    selectTraining true thr K pixels = (pixels, true) := by
  simp [selectTraining, h]

theorem run_fallback_eq (pixels : List Q3) (K maxIter : ℕ) (thr thr' : ℚ)
    (initIdx : List ℕ) (reseedIdx : ℕ → ℕ → ℕ)
    (h : selectTraining true thr K pixels = (pixels, true)) :
    (kmeansRun pixels K maxIter true thr initIdx reseedIdx).image
      = (kmeansRun pixels K maxIter false thr' initIdx reseedIdx).image
    ∧ (kmeansRun pixels K maxIter true thr initIdx reseedIdx).palette
      = (kmeansRun pixels K maxIter false thr' initIdx reseedIdx).palette
    ∧ (kmeansRun pixels K maxIter true thr initIdx reseedIdx).centers
      = (kmeansRun pixels K maxIter false thr' initIdx reseedIdx).centers
    ∧ (kmeansRun pixels K maxIter true thr initIdx reseedIdx).degraded = true := by
  have h' : selectTraining false thr' K pixels = (pixels, false) := by
    simp [selectTraining]
  refine ⟨?_, ?_, ?_, ?_⟩ <;>
    simp only [kmeansRun, h, h']

/-! ### C6: insufficient foreground triggers a non-fatal fallback -/

/-- C6: whenever background filtering is on and the number of foreground
pixels (brightness strictly greater than the threshold) is less than K,
the run does not fail: the degraded-mode notice is signalled, the training
set reverts to all pixels of the image, and clustering proceeds exactly as
it would with filtering disabled. -/
theorem degraded_mode_fallback (pixels : List Q3) (K maxIter : ℕ) (thr : ℚ)
    (initIdx : List ℕ) (reseedIdx : ℕ → ℕ → ℕ)
    (h : (pixels.filter (fun p => decide (thr < brightness p))).length < K) :
    selectTraining true thr K pixels = (pixels, true)
    ∧ (kmeansRun pixels K maxIter true thr initIdx reseedIdx).degraded = true
    ∧ (kmeansRun pixels K maxIter true thr initIdx reseedIdx).image
        = (kmeansRun pixels K maxIter false thr initIdx reseedIdx).image
    ∧ (kmeansRun pixels K maxIter true thr initIdx reseedIdx).palette
        = (kmeansRun pixels K maxIter false thr initIdx reseedIdx).palette
    ∧ (kmeansRun pixels K maxIter true thr initIdx reseedIdx).centers
        = (kmeansRun pixels K maxIter false thr initIdx reseedIdx).centers := by
  have hsel := selectTraining_fallback thr K pixels h
  have heq := run_fallback_eq pixels K maxIter thr thr initIdx reseedIdx hsel
  exact ⟨hsel, heq.2.2.2, heq.1, heq.2.1, heq.2.2.1⟩

/-- Witness for C6: one bright pixel over threshold 30 but `K = 2`. -/
theorem degraded_mode_fallback_witness :
    (([⟨10,10,10⟩, ⟨200,200,200⟩] : List Q3).filter
        (fun p => decide ((30 : ℚ) < brightness p))).length < 2
    ∧ (selectTraining true 30 2 [⟨10,10,10⟩, ⟨200,200,200⟩]
        = ([⟨10,10,10⟩, ⟨200,200,200⟩], true)
      ∧ (kmeansRun [⟨10,10,10⟩, ⟨200,200,200⟩] 2 50 true 30 [0, 1]
          (fun _ _ => 0)).degraded = true
      ∧ (kmeansRun [⟨10,10,10⟩, ⟨200,200,200⟩] 2 50 true 30 [0, 1]
          (fun _ _ => 0)).image
        = (kmeansRun [⟨10,10,10⟩, ⟨200,200,200⟩] 2 50 false 30 [0, 1]
          (fun _ _ => 0)).image
      ∧ (kmeansRun [⟨10,10,10⟩, ⟨200,200,200⟩] 2 50 true 30 [0, 1]
          (fun _ _ => 0)).palette
        = (kmeansRun [⟨10,10,10⟩, ⟨200,200,200⟩] 2 50 false 30 [0, 1]
          (fun _ _ => 0)).palette
      ∧ (kmeansRun [⟨10,10,10⟩, ⟨200,200,200⟩] 2 50 true 30 [0, 1]
          (fun _ _ => 0)).centers
        = (kmeansRun [⟨10,10,10⟩, ⟨200,200,200⟩] 2 50 false 30 [0, 1]
          (fun _ _ => 0)).centers) := by
  have h : (([⟨10,10,10⟩, ⟨200,200,200⟩] : List Q3).filter
      (fun p => decide ((30 : ℚ) < brightness p))).length < 2 := by
    norm_num [brightness, List.filter_cons, List.filter_nil]
  exact ⟨h, degraded_mode_fallback [⟨10,10,10⟩, ⟨200,200,200⟩] 2 50 30 [0, 1]
    (fun _ _ => 0) h⟩

/-! ### C3: there is no configuration validation -/

/-- Counterexample for C3: with the background threshold 300, which lies
outside [0,255], no ConfigError is raised and processing is not stopped:
the quantization runs to completion (two iterations, degraded mode) and
returns a normal quantized image and palette. -/
theorem c3_no_config_error_counterexample :
    (255 : ℚ) < 300
    ∧ kmeansRun [⟨10,10,10⟩, ⟨200,200,200⟩] 1 50 true 300 [0] (fun _ _ => 0)
      = { image := [(105,105,105), (105,105,105)],
          palette := [(105,105,105)],
          centers := [⟨105,105,105⟩],
          degraded := true,
          iters := 2 } := by
  have hsel : selectTraining true 300 1 [⟨10,10,10⟩, ⟨200,200,200⟩]
      = ([⟨10,10,10⟩, ⟨200,200,200⟩], true) := by
    norm_num [selectTraining, brightness, List.filter_cons, List.filter_nil]
  have key : ∀ rs : ℕ → ℕ → Q3,
      kmeansLoop [⟨10,10,10⟩, ⟨200,200,200⟩] rs 50
        (initCentroids [⟨10,10,10⟩, ⟨200,200,200⟩] [0]) 0
        = ([⟨105,105,105⟩], 2) := by
    intro rs
    have h1 : ∀ n < 1, 1 ≤ shiftAt [⟨10,10,10⟩, ⟨200,200,200⟩] rs
        (initCentroids [⟨10,10,10⟩, ⟨200,200,200⟩] [0]) n := by
      intro n hn
      norm_num at hn
      subst hn
      norm_num [shiftAt, centersFrom, updateCenters, members, meanPt, assign,
        l1Shift, initCentroids, d2, q3zero, List.range, List.range.loop,
        List.argmin, List.argAux, List.filter_cons, List.filter_nil,
        abs_of_nonneg]
    have h2 : shiftAt [⟨10,10,10⟩, ⟨200,200,200⟩] rs
        (initCentroids [⟨10,10,10⟩, ⟨200,200,200⟩] [0]) 1 < 1 := by
      norm_num [shiftAt, centersFrom, updateCenters, members, meanPt, assign,
        l1Shift, initCentroids, d2, q3zero, List.range, List.range.loop,
        List.argmin, List.argAux, List.filter_cons, List.filter_nil,
        abs_of_nonneg]
    have hcv := kmeansLoop_conv [⟨10,10,10⟩, ⟨200,200,200⟩] rs 50
      (initCentroids [⟨10,10,10⟩, ⟨200,200,200⟩] [0]) 0 1 (by norm_num)
      (by simpa [shiftAt] using h1) (by simpa [shiftAt] using h2)
    rw [hcv]
    have hc2 : centersFrom [⟨10,10,10⟩, ⟨200,200,200⟩] rs 0
        (initCentroids [⟨10,10,10⟩, ⟨200,200,200⟩] [0]) 2
        = [⟨105,105,105⟩] := by
      norm_num [centersFrom, updateCenters, members, meanPt, assign,
        initCentroids, d2, q3zero, List.range, List.range.loop,
        List.argmin, List.argAux, List.filter_cons, List.filter_nil]
    rw [hc2]
  refine ⟨by norm_num, ?_⟩
  simp only [kmeansRun, hsel]
  rw [key]
  norm_num [assign, clampByte3, clampByte, castByte3, castByte, initCentroids,
    d2, q3zero, List.range, List.range.loop, List.argmin, List.argAux,
    min_def, max_def, QuantResult.mk.injEq, Prod.mk.injEq]

/-- C3 (amended): the code performs no configuration validation and defines
no ConfigError.  In particular a background brightness threshold outside
[0,255] is silently accepted: any threshold at or above 255 classifies
every 8-bit pixel as background, so with K at least 1 the selector falls
back to training on all pixels (degraded mode) and the run completes
exactly like a run with filtering disabled.  (K below 1 and non-positive
dimensions likewise raise no ConfigError; they surface as library errors
inside numpy and PIL.) -/
theorem no_validation_out_of_range_threshold (pixels : List Q3) (K maxIter : ℕ)
    (thr : ℚ) (initIdx : List ℕ) (reseedIdx : ℕ → ℕ → ℕ)
    (hthr : 255 ≤ thr) (hK : 1 ≤ K)
    (hpx : ∀ p ∈ pixels, p.r ≤ 255 ∧ p.g ≤ 255 ∧ p.b ≤ 255) :
    selectTraining true thr K pixels = (pixels, true)
    ∧ (kmeansRun pixels K maxIter true thr initIdx reseedIdx).degraded = true
    ∧ (kmeansRun pixels K maxIter true thr initIdx reseedIdx).image
        = (kmeansRun pixels K maxIter false thr initIdx reseedIdx).image
    ∧ (kmeansRun pixels K maxIter true thr initIdx reseedIdx).palette
        = (kmeansRun pixels K maxIter false thr initIdx reseedIdx).palette := by
  have hfg : pixels.filter (fun p => decide (thr < brightness p)) = [] := by
    rw [List.filter_eq_nil_iff]
    intro p hp
    have h3 := hpx p hp
    have hb : brightness p ≤ 255 := by
      rw [brightness]
      linarith [h3.1, h3.2.1, h3.2.2]
    simp only [decide_eq_true_eq, not_lt]
    linarith
  have hsel := selectTraining_fallback thr K pixels (by rw [hfg]; simpa using hK)
  have heq := run_fallback_eq pixels K maxIter thr thr initIdx reseedIdx hsel
  exact ⟨hsel, heq.2.2.2, heq.1, heq.2.1⟩

/-- Witness for the amended C3 at threshold 300 on a two-pixel image. -/
theorem no_validation_witness :
    (255 : ℚ) ≤ 300 ∧ 1 ≤ 1
    ∧ (∀ p ∈ ([⟨10,10,10⟩, ⟨200,200,200⟩] : List Q3),
        p.r ≤ 255 ∧ p.g ≤ 255 ∧ p.b ≤ 255)
    ∧ (selectTraining true 300 1 [⟨10,10,10⟩, ⟨200,200,200⟩]
        = ([⟨10,10,10⟩, ⟨200,200,200⟩], true)
      ∧ (kmeansRun [⟨10,10,10⟩, ⟨200,200,200⟩] 1 50 true 300 [0]
          (fun _ _ => 0)).degraded = true
      ∧ (kmeansRun [⟨10,10,10⟩, ⟨200,200,200⟩] 1 50 true 300 [0]
          (fun _ _ => 0)).image
        = (kmeansRun [⟨10,10,10⟩, ⟨200,200,200⟩] 1 50 false 300 [0]
          (fun _ _ => 0)).image
      ∧ (kmeansRun [⟨10,10,10⟩, ⟨200,200,200⟩] 1 50 true 300 [0]
          (fun _ _ => 0)).palette
        = (kmeansRun [⟨10,10,10⟩, ⟨200,200,200⟩] 1 50 false 300 [0]
          (fun _ _ => 0)).palette) := by
  have hpx : ∀ p ∈ ([⟨10,10,10⟩, ⟨200,200,200⟩] : List Q3),
      p.r ≤ 255 ∧ p.g ≤ 255 ∧ p.b ≤ 255 := by
    intro p hp
    simp only [List.mem_cons, List.not_mem_nil, or_false] at hp
    rcases hp with rfl | rfl <;> norm_num
  exact ⟨by norm_num, le_refl 1, hpx,
    no_validation_out_of_range_threshold [⟨10,10,10⟩, ⟨200,200,200⟩] 1 50 300
      [0] (fun _ _ => 0) (by norm_num) (le_refl 1) hpx⟩

/-! ### C2: presentation order versus returned palette order -/

/-- Counterexample for C2: on a two-pixel run whose initialization picks the
bright pixel first, the function returns the palette in internal cluster
order — here brightness-descending — so the returned list of RGB triples
is not the centroid list sorted ascending by mean-channel brightness. -/
theorem c2_returned_palette_unsorted_counterexample :
    (kmeansRun [⟨255,255,255⟩, ⟨0,0,0⟩] 2 50 false 30 [0, 1]
        (fun _ _ => 0)).palette = [(255,255,255), (0,0,0)]
    ∧ (kmeansRun [⟨255,255,255⟩, ⟨0,0,0⟩] 2 50 false 30 [0, 1]
        (fun _ _ => 0)).centers = [⟨255,255,255⟩, ⟨0,0,0⟩]
    ∧ sortedPalette [⟨255,255,255⟩, ⟨0,0,0⟩] = [⟨0,0,0⟩, ⟨255,255,255⟩]
    ∧ (kmeansRun [⟨255,255,255⟩, ⟨0,0,0⟩] 2 50 false 30 [0, 1]
        (fun _ _ => 0)).palette
      ≠ (sortedPalette (kmeansRun [⟨255,255,255⟩, ⟨0,0,0⟩] 2 50 false 30 [0, 1]
          (fun _ _ => 0)).centers).map castByte3 := by
  have hsel : selectTraining false 30 2 [⟨255,255,255⟩, ⟨0,0,0⟩]
      = ([⟨255,255,255⟩, ⟨0,0,0⟩], false) := by
    simp [selectTraining]
  have key : ∀ rs : ℕ → ℕ → Q3,
      kmeansLoop [⟨255,255,255⟩, ⟨0,0,0⟩] rs 50
        (initCentroids [⟨255,255,255⟩, ⟨0,0,0⟩] [0, 1]) 0
        = ([⟨255,255,255⟩, ⟨0,0,0⟩], 1) := by
    intro rs
    have h2 : shiftAt [⟨255,255,255⟩, ⟨0,0,0⟩] rs
        (initCentroids [⟨255,255,255⟩, ⟨0,0,0⟩] [0, 1]) 0 < 1 := by
      norm_num [shiftAt, centersFrom, updateCenters, members, meanPt, assign,
        l1Shift, initCentroids, d2, q3zero, List.range, List.range.loop,
        List.argmin, List.argAux, List.filter_cons, List.filter_nil,
        abs_of_nonneg]
    have hcv := kmeansLoop_conv [⟨255,255,255⟩, ⟨0,0,0⟩] rs 50
      (initCentroids [⟨255,255,255⟩, ⟨0,0,0⟩] [0, 1]) 0 0 (by norm_num)
      (by omega) (by simpa [shiftAt] using h2)
    rw [hcv]
    have hc1 : centersFrom [⟨255,255,255⟩, ⟨0,0,0⟩] rs 0
        (initCentroids [⟨255,255,255⟩, ⟨0,0,0⟩] [0, 1]) 1
        = [⟨255,255,255⟩, ⟨0,0,0⟩] := by
      norm_num [centersFrom, updateCenters, members, meanPt, assign,
        initCentroids, d2, q3zero, List.range, List.range.loop,
        List.argmin, List.argAux, List.filter_cons, List.filter_nil]
    rw [hc1]
  have hcent : (kmeansRun [⟨255,255,255⟩, ⟨0,0,0⟩] 2 50 false 30 [0, 1]
      (fun _ _ => 0)).centers = [⟨255,255,255⟩, ⟨0,0,0⟩] := by
    simp only [kmeansRun, hsel]
    rw [key]
  have hpal : (kmeansRun [⟨255,255,255⟩, ⟨0,0,0⟩] 2 50 false 30 [0, 1]
      (fun _ _ => 0)).palette = [(255,255,255), (0,0,0)] := by
    simp only [kmeansRun, hsel]
    rw [key]
    norm_num [castByte3, castByte]
  have hsort : sortedPalette [⟨255,255,255⟩, ⟨0,0,0⟩] = [⟨0,0,0⟩, ⟨255,255,255⟩] := by
    norm_num [sortedPalette, List.mergeSort, brightness]
  refine ⟨hpal, hcent, hsort, ?_⟩
  rw [hpal, hcent, hsort]
  norm_num [castByte3, castByte]

/-- C2 (amended): the palette the quantization function returns is the
centroid list in internal cluster-index order, cast entrywise to uint8 —
not sorted; only the console presentation of the palette is the centroid
list sorted ascending by mean-channel brightness (a sorted permutation of
the centers, distinct in general from the internal index order). -/
theorem palette_presentation_vs_return (pixels : List Q3) (K maxIter : ℕ)
    (ignoreBg : Bool) (thr : ℚ) (initIdx : List ℕ) (reseedIdx : ℕ → ℕ → ℕ) :
    (kmeansRun pixels K maxIter ignoreBg thr initIdx reseedIdx).palette
      = (kmeansRun pixels K maxIter ignoreBg thr initIdx reseedIdx).centers.map
          castByte3
    ∧ List.Sorted (fun a b => brightness a ≤ brightness b)
        (sortedPalette
          (kmeansRun pixels K maxIter ignoreBg thr initIdx reseedIdx).centers)
    ∧ (sortedPalette
        (kmeansRun pixels K maxIter ignoreBg thr initIdx reseedIdx).centers).Perm
        (kmeansRun pixels K maxIter ignoreBg thr initIdx reseedIdx).centers := by
  refine ⟨rfl, ?_, List.mergeSort_perm _ _⟩
  have htrans : ∀ a b c : Q3, (fun a b : Q3 => decide (brightness a ≤ brightness b)) a b →
      (fun a b : Q3 => decide (brightness a ≤ brightness b)) b c →
      (fun a b : Q3 => decide (brightness a ≤ brightness b)) a c := by
    intro a b c h1 h2
    simp only [decide_eq_true_eq] at h1 h2 ⊢
    exact le_trans h1 h2
  have htotal : ∀ a b : Q3, ((fun a b : Q3 => decide (brightness a ≤ brightness b)) a b
      || (fun a b : Q3 => decide (brightness a ≤ brightness b)) b a) := by
    intro a b
    simp only [Bool.or_eq_true, decide_eq_true_eq]
    exact le_total (brightness a) (brightness b)
  have hs := List.sorted_mergeSort htrans htotal
    (kmeansRun pixels K maxIter ignoreBg thr initIdx reseedIdx).centers
  exact hs.imp (fun h => by simpa using h)

/-! ### C7: training sees only foreground; remap covers every pixel -/

/-- C7: when background filtering is on and the foreground count is at least
K, the training set is exactly the pixels with brightness strictly greater
than the threshold, and the centroids depend only on that foreground — two
images with identical foregrounds produce identical centroids, whatever
their background pixels — while the final quantized image maps every pixel
of the full image, foreground and background alike, to its nearest centroid
by the same Euclidean distance rule and replaces it with that centroid's
color clamped to the 8-bit channel range. -/
theorem foreground_training_full_remap (pixels1 pixels2 : List Q3)
    (K maxIter : ℕ) (thr : ℚ) (initIdx : List ℕ) (reseedIdx : ℕ → ℕ → ℕ)
    (hfg : pixels1.filter (fun p => decide (thr < brightness p))
         = pixels2.filter (fun p => decide (thr < brightness p)))
    (hK : K ≤ (pixels1.filter (fun p => decide (thr < brightness p))).length) :
    (selectTraining true thr K pixels1).1
      = pixels1.filter (fun p => decide (thr < brightness p))
    ∧ (kmeansRun pixels1 K maxIter true thr initIdx reseedIdx).centers
      = (kmeansRun pixels2 K maxIter true thr initIdx reseedIdx).centers
    ∧ ∀ j, j < pixels1.length →
        (kmeansRun pixels1 K maxIter true thr initIdx reseedIdx).image.getD j (0,0,0)
          = clampByte3
            ((kmeansRun pixels1 K maxIter true thr initIdx reseedIdx).centers.getD
              (assign (kmeansRun pixels1 K maxIter true thr initIdx reseedIdx).centers
                (pixels1.getD j q3zero)) q3zero) := by
  have hnot1 : ¬ (pixels1.filter (fun p => decide (thr < brightness p))).length < K :=
    not_lt.mpr hK
  have hnot2 : ¬ (pixels2.filter (fun p => decide (thr < brightness p))).length < K := by
    rw [← hfg]
    exact hnot1
  have hsel1 : selectTraining true thr K pixels1
      = (pixels1.filter (fun p => decide (thr < brightness p)), false) := by
    simp [selectTraining, hnot1]
  have hsel2 : selectTraining true thr K pixels2
      = (pixels2.filter (fun p => decide (thr < brightness p)), false) := by
    simp [selectTraining, hnot2]
  refine ⟨by rw [hsel1], ?_, ?_⟩
  · simp only [kmeansRun, hsel1, hsel2]
    rw [hfg]
  · intro j hj
    have himg : (kmeansRun pixels1 K maxIter true thr initIdx reseedIdx).image
        = pixels1.map (fun p => clampByte3
            ((kmeansRun pixels1 K maxIter true thr initIdx reseedIdx).centers.getD
              (assign (kmeansRun pixels1 K maxIter true thr initIdx reseedIdx).centers
                p) q3zero)) := rfl
    rw [himg, getD_map pixels1 _ j hj (0,0,0) q3zero]

/-- Witness for C7: two images sharing the single bright foreground pixel
but differing in their dark background pixel. -/
theorem foreground_training_full_remap_witness :
    ([⟨100,100,100⟩, ⟨0,0,0⟩] : List Q3).filter
        (fun p => decide ((30 : ℚ) < brightness p))
      = ([⟨100,100,100⟩, ⟨5,5,5⟩] : List Q3).filter
        (fun p => decide ((30 : ℚ) < brightness p))
    ∧ 1 ≤ (([⟨100,100,100⟩, ⟨0,0,0⟩] : List Q3).filter
        (fun p => decide ((30 : ℚ) < brightness p))).length
    ∧ ((selectTraining true 30 1 [⟨100,100,100⟩, ⟨0,0,0⟩]).1
        = ([⟨100,100,100⟩, ⟨0,0,0⟩] : List Q3).filter
          (fun p => decide ((30 : ℚ) < brightness p))
      ∧ (kmeansRun [⟨100,100,100⟩, ⟨0,0,0⟩] 1 50 true 30 [0]
          (fun _ _ => 0)).centers
        = (kmeansRun [⟨100,100,100⟩, ⟨5,5,5⟩] 1 50 true 30 [0]
          (fun _ _ => 0)).centers
      ∧ ∀ j, j < ([⟨100,100,100⟩, ⟨0,0,0⟩] : List Q3).length →
          (kmeansRun [⟨100,100,100⟩, ⟨0,0,0⟩] 1 50 true 30 [0]
            (fun _ _ => 0)).image.getD j (0,0,0)
            = clampByte3
              ((kmeansRun [⟨100,100,100⟩, ⟨0,0,0⟩] 1 50 true 30 [0]
                (fun _ _ => 0)).centers.getD
                (assign (kmeansRun [⟨100,100,100⟩, ⟨0,0,0⟩] 1 50 true 30 [0]
                  (fun _ _ => 0)).centers
                  (([⟨100,100,100⟩, ⟨0,0,0⟩] : List Q3).getD j q3zero)) q3zero)) := by
  have hfg : ([⟨100,100,100⟩, ⟨0,0,0⟩] : List Q3).filter
      (fun p => decide ((30 : ℚ) < brightness p))
      = ([⟨100,100,100⟩, ⟨5,5,5⟩] : List Q3).filter
        (fun p => decide ((30 : ℚ) < brightness p)) := by
    norm_num [brightness, List.filter_cons, List.filter_nil]
  have hK : 1 ≤ (([⟨100,100,100⟩, ⟨0,0,0⟩] : List Q3).filter
      (fun p => decide ((30 : ℚ) < brightness p))).length := by
    norm_num [brightness, List.filter_cons, List.filter_nil]
  exact ⟨hfg, hK, foreground_training_full_remap [⟨100,100,100⟩, ⟨0,0,0⟩]
    [⟨100,100,100⟩, ⟨5,5,5⟩] 1 50 30 [0] (fun _ _ => 0) hfg hK⟩

/-! ### C8: preserve-aspect letterboxing geometry -/

theorem fdiv_two_eq_floor_half (a : ℤ) : Int.fdiv a 2 = ⌊(a : ℚ) / 2⌋ := by
  rw [Int.fdiv_eq_ediv a (by norm_num : (0 : ℤ) ≤ 2)]
  have h := Rat.floor_intCast_div_natCast a 2
  have e2 : (((2 : ℕ) : ℚ)) = (2 : ℚ) := by norm_num
  have e2' : (((2 : ℕ) : ℤ)) = (2 : ℤ) := by norm_num
  rw [e2] at h
  rw [e2'] at h
  exact h.symm

/-- C8: with preserve-aspect on, the Resampler scales the source by the
uniform factor min(target_w/src_w, target_h/src_h) (content size equals the
truncated product), centers the scaled image on a black canvas of exactly
the target dimensions with offsets floor((target − scaled)/2) on each axis;
a 200×100 source resized to a 100×100 target yields 100×50 scaled content
centered with 25-pixel fill bars top and bottom, and non-preserve mode on
the same inputs yields exactly 100×100 with aspect distortion. -/
theorem resample_geometry (sw sh tw th : ℤ)
    (hsw : 0 < sw) (hsh : 0 < sh) (htw : 0 < tw) (hth : 0 < th) :
    ((downsampleGeom sw sh tw th true).canvasW = tw
    ∧ (downsampleGeom sw sh tw th true).canvasH = th
    ∧ (downsampleGeom sw sh tw th true).contentW
        = ⌊(sw : ℚ) * min ((tw : ℚ) / (sw : ℚ)) ((th : ℚ) / (sh : ℚ))⌋
    ∧ (downsampleGeom sw sh tw th true).contentH
        = ⌊(sh : ℚ) * min ((tw : ℚ) / (sw : ℚ)) ((th : ℚ) / (sh : ℚ))⌋
    ∧ (downsampleGeom sw sh tw th true).offX
        = ⌊((tw - (downsampleGeom sw sh tw th true).contentW : ℤ) : ℚ) / 2⌋
    ∧ (downsampleGeom sw sh tw th true).offY
        = ⌊((th - (downsampleGeom sw sh tw th true).contentH : ℤ) : ℚ) / 2⌋
    ∧ (downsampleGeom sw sh tw th true).fill = (0, 0, 0))
    ∧ downsampleGeom 200 100 100 100 true
      = { contentW := 100, contentH := 50, offX := 0, offY := 25,
          canvasW := 100, canvasH := 100, fill := (0, 0, 0) }
    ∧ (100 : ℤ) - 25 - 50 = 25
    ∧ downsampleGeom 200 100 100 100 false
      = { contentW := 100, contentH := 100, offX := 0, offY := 0,
          canvasW := 100, canvasH := 100, fill := (0, 0, 0) } := by
  refine ⟨⟨rfl, rfl, rfl, rfl, fdiv_two_eq_floor_half _, fdiv_two_eq_floor_half _, rfl⟩,
    ?_, by norm_num, ?_⟩
  · have hsc : min ((100 : ℚ) / (200 : ℚ)) ((100 : ℚ) / (100 : ℚ)) = 1 / 2 := by
      norm_num [min_def]
    simp only [downsampleGeom, if_pos]
    norm_num [hsc, ResampleGeom.mk.injEq]
    norm_num [Int.fdiv]
  · simp [downsampleGeom]

/-- Witness for C8 applying the geometry theorem at the 200×100 → 100×100
instance of the claim. -/
theorem resample_geometry_witness :
    (0 : ℤ) < 200 ∧ (0 : ℤ) < 100
    ∧ (downsampleGeom 200 100 100 100 true
        = { contentW := 100, contentH := 50, offX := 0, offY := 25,
            canvasW := 100, canvasH := 100, fill := (0, 0, 0) }
      ∧ downsampleGeom 200 100 100 100 false
        = { contentW := 100, contentH := 100, offX := 0, offY := 0,
            canvasW := 100, canvasH := 100, fill := (0, 0, 0) }) := by
  have h := resample_geometry 200 100 100 100 (by norm_num) (by norm_num)
    (by norm_num) (by norm_num)
  exact ⟨by norm_num, by norm_num, h.2.1, h.2.2.2⟩

/-! ### C9: determinism of the pipeline for fixed draws -/

/-- C9: the quantization pipeline is a pure function of the image, K, seed
draws, background threshold and max_iterations: two runs on identical
inputs (the fixed seed 42 makes the library draws a fixed function of the
training-set size and K) produce identical palette and quantized image;
the initial centroids are the training samples at the K drawn indices, a
deterministic seeded draw without replacement (distinct in-range indices),
so the same draw on the same sample set gives identical initial centroids,
all of which are training-set members. -/
theorem pipeline_deterministic (pixels1 pixels2 : List Q3) (K1 K2 m1 m2 : ℕ)
    (bg1 bg2 : Bool) (thr1 thr2 : ℚ) (i1 i2 : List ℕ) (r1 r2 : ℕ → ℕ → ℕ)
    (hp : pixels1 = pixels2) (hK : K1 = K2) (hm : m1 = m2) (hbg : bg1 = bg2)
    (hthr : thr1 = thr2) (hi : i1 = i2) (hr : r1 = r2)
    (hnd : i1.Nodup) (hlen : i1.length = K1)
    (hbound : ∀ i ∈ i1, i < (selectTraining bg1 thr1 K1 pixels1).1.length) :
    kmeansRun pixels1 K1 m1 bg1 thr1 i1 r1 = kmeansRun pixels2 K2 m2 bg2 thr2 i2 r2
    ∧ initCentroids (selectTraining bg1 thr1 K1 pixels1).1 i1
        = initCentroids (selectTraining bg2 thr2 K2 pixels2).1 i2
    ∧ (initCentroids (selectTraining bg1 thr1 K1 pixels1).1 i1).length = K1
    ∧ (∀ c ∈ initCentroids (selectTraining bg1 thr1 K1 pixels1).1 i1,
        c ∈ (selectTraining bg1 thr1 K1 pixels1).1) := by
  subst hp
  subst hK
  subst hm
  subst hbg
  subst hthr
  subst hi
  subst hr
  refine ⟨rfl, rfl, by simp [initCentroids, hlen], ?_⟩
  intro c hc
  rw [initCentroids] at hc
  rcases List.mem_map.mp hc with ⟨i, hi1, rfl⟩
  exact getD_mem _ _ (hbound i hi1) _

/-- Witness for C9 at a concrete two-pixel image with the draw [0, 1]. -/
theorem pipeline_deterministic_witness :
    ([0, 1] : List ℕ).Nodup ∧ ([0, 1] : List ℕ).length = 2
    ∧ (∀ i ∈ ([0, 1] : List ℕ),
        i < (selectTraining false 30 2 [⟨0,0,0⟩, ⟨255,255,255⟩]).1.length)
    ∧ kmeansRun [⟨0,0,0⟩, ⟨255,255,255⟩] 2 50 false 30 [0, 1] (fun _ _ => 0)
      = kmeansRun [⟨0,0,0⟩, ⟨255,255,255⟩] 2 50 false 30 [0, 1] (fun _ _ => 0)
    ∧ (initCentroids (selectTraining false 30 2 [⟨0,0,0⟩, ⟨255,255,255⟩]).1
        [0, 1]).length = 2
    ∧ (∀ c ∈ initCentroids (selectTraining false 30 2 [⟨0,0,0⟩, ⟨255,255,255⟩]).1
        [0, 1], c ∈ (selectTraining false 30 2 [⟨0,0,0⟩, ⟨255,255,255⟩]).1) := by
  have hnd : ([0, 1] : List ℕ).Nodup := by simp
  have hlen : ([0, 1] : List ℕ).length = 2 := by simp
  have hbound : ∀ i ∈ ([0, 1] : List ℕ),
      i < (selectTraining false 30 2 [⟨0,0,0⟩, ⟨255,255,255⟩]).1.length := by
    intro i hi
    simp only [List.mem_cons, List.not_mem_nil, or_false] at hi
    rcases hi with rfl | rfl <;> simp [selectTraining]
  have h := pipeline_deterministic [⟨0,0,0⟩, ⟨255,255,255⟩] [⟨0,0,0⟩, ⟨255,255,255⟩]
    2 2 50 50 false false 30 30 [0, 1] [0, 1] (fun _ _ => 0) (fun _ _ => 0)
    rfl rfl rfl rfl rfl rfl rfl hnd hlen hbound
  exact ⟨hnd, hlen, hbound, h.1, h.2.2.1, h.2.2.2⟩

/-! ### C10: unrecognized resample methods fall back to Lanczos -/

/-- C10: for every resample-method string outside the recognized set
(nearest, bilinear, lanczos) — including the spec's name "high-quality" —
the Resampler raises no error and silently uses Lanczos, so an
unrecognized method name is indistinguishable from requesting Lanczos. -/
theorem unrecognized_method_lanczos (s : String)
    (h1 : s ≠ "nearest") (h2 : s ≠ "bilinear") (h3 : s ≠ "lanczos") :
    resampleMethodOf s = ResampleMethod.lanczos
    ∧ resampleMethodOf s = resampleMethodOf "lanczos"
    ∧ resampleMethodOf "high-quality" = ResampleMethod.lanczos := by
  refine ⟨?_, ?_, by decide⟩ <;> simp [resampleMethodOf, h1, h2, h3]

/-- Witness for C10 at the unrecognized method name "high-quality". -/
theorem unrecognized_method_lanczos_witness :
    ("high-quality" ≠ "nearest") ∧ ("high-quality" ≠ "bilinear")
    ∧ ("high-quality" ≠ "lanczos")
    ∧ (resampleMethodOf "high-quality" = ResampleMethod.lanczos
      ∧ resampleMethodOf "high-quality" = resampleMethodOf "lanczos"
      ∧ resampleMethodOf "high-quality" = ResampleMethod.lanczos) := by
  refine ⟨by decide, by decide, by decide, ?_⟩
  exact unrecognized_method_lanczos "high-quality" (by decide) (by decide) (by decide)
